import Mathlib

/-!
Verification development for the `vito-local` root service.

Go strings are modelled as Lean `String`, with the string operations the
source uses (`strings.ToUpper`, `strings.HasPrefix`, `strings.Contains`,
`strings.Split`, `strings.TrimSpace`, `strings.TrimPrefix`, `fmt.Sscanf %d`)
re-implemented over the underlying character list so that every definition
is executable and reducible by the kernel.

Effectful code (connection handler, updater, executor, atomic replace) is
embedded as pure functions over explicit oracles describing the outcomes of
the external operations (network fetches, subprocess lifecycle, filesystem
calls); the functions mirror the Go control flow statement by statement.
-/

namespace VitoLocal

/-! ## String helpers (models of the Go standard-library calls used) -/

/-- Model of Go `strings.ToUpper` restricted to ASCII (all names the
handler compares against are ASCII). -/
def upChar (c : Char) : Char :=
  if 'a' ≤ c ∧ c ≤ 'z' then Char.ofNat (c.toNat - 32) else c

/-- Uppercase a string, character by character. -/
def upStr (s : String) : String := ⟨s.data.map upChar⟩

/-- Model of Go `strings.HasPrefix`. -/
def strHasPrefix (s p : String) : Bool := p.data.isPrefixOf s.data

/-- Model of Go `strings.Contains` for a single character
(`strings.Contains(k, "=")`, `strings.ContainsRune(k, 0)`). -/
def strContainsChar (s : String) (c : Char) : Bool := s.data.contains c

/-- Does `sub` occur as a contiguous sublist of `l`? -/
def containsSubAux (sub : List Char) : List Char → Bool
  | [] => sub.isPrefixOf []
  | c :: cs => sub.isPrefixOf (c :: cs) || containsSubAux sub cs

/-- Model of Go `strings.Contains` for a substring. -/
def strContainsSub (s sub : String) : Bool := containsSubAux sub.data s.data

/-- Whitespace as recognised by Go `unicode.IsSpace`, restricted to ASCII. -/
def goIsSpace (c : Char) : Bool :=
  c = ' ' ∨ c = '\t' ∨ c = '\n' ∨ c = Char.ofNat 11 ∨ c = Char.ofNat 12 ∨ c = '\r'

/-- Model of Go `strings.TrimSpace`. -/
def goTrimSpace (s : String) : String :=
  ⟨((s.data.dropWhile goIsSpace).reverse.dropWhile goIsSpace).reverse⟩

/-- Model of Go `strings.TrimPrefix(s, "v")`. -/
def trimPrefixV (s : String) : String :=
  match s.data with
  | 'v' :: rest => ⟨rest⟩
  | l => ⟨l⟩

/-- Split a character list at a separator character, Go `strings.Split`
semantics: the result is always non-empty, and splitting the empty string
yields one empty field. -/
def splitCharList (sep : Char) : List Char → List (List Char)
  | [] => [[]]
  | c :: cs =>
    if c = sep then [] :: splitCharList sep cs
    else
      match splitCharList sep cs with
      | [] => [[c]]
      | g :: gs => (c :: g) :: gs

/-! ## Version comparison (`internal/updater`, functions `normalizeVersion`,
`parseVersion`, `isNewerVersion`) -/

/-- `normalizeVersion` removes the `"v"` prefix and surrounding whitespace. -/
def normalizeVersion (version : String) : String :=
  trimPrefixV (goTrimSpace version)

/-- Truncate a version part at the first `'-'` or `'+'`
(`strings.IndexAny(part, "-+")`). -/
def truncAtDashPlus (part : List Char) : List Char :=
  part.takeWhile (fun c => ¬ (c = '-' ∨ c = '+'))

/-- Model of `fmt.Sscanf(part, "%d", &num)` with the error ignored:
skip leading spaces, read the maximal run of decimal digits, and yield 0
when there is none.  After `truncAtDashPlus` no sign character can occur. -/
def scanNat (part : List Char) : Nat :=
  ((part.dropWhile goIsSpace).takeWhile Char.isDigit).foldl
    (fun n c => n * 10 + (c.toNat - 48)) 0

/-- `parseVersion` parses a version string into numeric parts. -/
def parseVersion (v : String) : List Nat :=
  (splitCharList '.' v.data).map (fun part => scanNat (truncAtDashPlus part))

/-- The comparison loop of `isNewerVersion`: walk the common prefix,
decide at the first differing part, and otherwise call the longer
sequence newer. -/
def verLt : List Nat → List Nat → Bool
  | [], [] => false
  | [], _ :: _ => true
  | _ :: _, [] => false
  | x :: xs, y :: ys => if x < y then true else if y < x then false else verLt xs ys

/-- `isNewerVersion` returns true if `latest` is newer than `current`. -/
def isNewerVersion (current latest : String) : Bool :=
  if current = "" ∨ current = "dev" then
    ¬ (latest = "") ∧ ¬ (latest = "dev")
  else
    verLt (parseVersion current) (parseVersion latest)

/-- Membership of a string in the special class treated separately by
`isNewerVersion`. -/
def isDevOrEmpty (s : String) : Bool := s = "" ∨ s = "dev"

/-! ## Protocol (`internal/protocol`): request framing and validation -/

/-- `MaxRequestSize` is the maximum allowed size for a single request line
(10 MiB, `10 << 20`). -/
def MaxRequestSize : Nat := 10 * 1024 * 1024

/-- A decoded request (`protocol.Request`).  Absent JSON fields decode to
the zero value, so all fields are plain strings / a key-value list. -/
structure Request where
  command : String
  action : String
  env : List (String × String)
  cwd : String
deriving DecidableEq

/-- The distinct failure modes of `protocol.ParseRequest`. -/
inductive ParseErr
  /-- `"request too large (max %d bytes)"`: the 10 MiB limit was exhausted
  before a newline was seen. -/
  | tooLarge
  /-- `"reading request: %w"`: the stream ended (or failed) before a
  newline, with the limit not yet exhausted. -/
  | readFailed
  /-- `"parsing request JSON: %w"`. -/
  | badJson
  /-- `"request must have either command or action"`. -/
  | missingCommandAndAction
  /-- `"unknown action: %s"`. -/
  | unknownAction (a : String)
deriving DecidableEq

/-- The prefix of a byte stream up to and including the first newline
(`bufio.ReadBytes('\n')`); `none` when the stream has no newline. -/
def takeLine : List Nat → Option (List Nat)
  | [] => none
  | b :: bs =>
    if b = 10 then some [10]
    else (takeLine bs).map (b :: ·)

/-- The framing phase of `ParseRequest`: `bufio.ReadBytes('\n')` over
`io.LimitedReader{R: reader, N: MaxRequestSize}`.  The limited reader
yields at most `MaxRequestSize` bytes; on a read failure the code reports
`tooLarge` when the limit was exhausted (`lr.N <= 0`, i.e. the stream had
at least `MaxRequestSize` bytes) and a plain read error otherwise. -/
def readRequestLine (input : List Nat) : Except ParseErr (List Nat) :=
  match takeLine (input.take MaxRequestSize) with
  | some line => .ok line
  | none =>
    if MaxRequestSize ≤ input.length then .error .tooLarge
    else .error .readFailed

/-- The validation phase of `ParseRequest`, statement for statement:
reject when both `command` and `action` are empty; when `action` is
non-empty it must be one of the three known actions. -/
def validateRequest (req : Request) : Except ParseErr Request :=
  if req.command = "" ∧ req.action = "" then
    .error .missingCommandAndAction
  else if req.action ≠ "" then
    if req.action = "update" ∨ req.action = "check-update" ∨ req.action = "version" then
      .ok req
    else
      .error (.unknownAction req.action)
  else
    .ok req

/-- `protocol.ParseRequest`, with JSON decoding abstracted as an oracle
`decode` (a line that is not a valid request object decodes to `none`). -/
def ParseRequestModel (decode : List Nat → Option Request)
    (input : List Nat) : Except ParseErr Request :=
  match readRequestLine input with
  | .error e => .error e
  | .ok line =>
    match decode line with
    | none => .error .badJson
    | some req => validateRequest req

/-! ## Environment filtering (`internal/server/handler.go`) -/

/-- `blockedEnvVars`: environment variable names that clients may not set. -/
def blockedEnvVars : List String :=
  ["PATH", "LD_PRELOAD", "LD_LIBRARY_PATH", "LD_AUDIT", "LD_DEBUG",
   "LD_PROFILE", "BASH_ENV", "ENV", "SHELLOPTS", "BASHOPTS", "IFS",
   "CDPATH", "GLOBIGNORE"]

/-- `blockedEnvPrefixes`: blocked environment variable name prefixes. -/
def blockedEnvPrefixes : List String := ["LD_", "BASH_FUNC_"]

/-- `isBlockedEnvVar`: uppercase the key, then check the exact-name map
and the prefix list. -/
def isBlockedEnvVar (key : String) : Bool :=
  let upper := upStr key
  blockedEnvVars.contains upper ||
    blockedEnvPrefixes.any (fun p => strHasPrefix upper p)

/-- One iteration of the environment-merging loop of `handleConnection`:
skip keys containing `=` or NUL, skip blocked keys, append the rest. -/
def mergeStep (acc : List String) (kv : String × String) : List String :=
  if strContainsChar kv.1 '=' || strContainsChar kv.1 (Char.ofNat 0) then acc
  else if isBlockedEnvVar kv.1 then acc
  else acc ++ [kv.1 ++ "=" ++ kv.2]

/-- The environment merging of `handleConnection`: start from the
inherited process environment and append each request entry whose key
contains neither `=` nor NUL and is not blocked. -/
def mergeEnv (parent : List String) (reqEnv : List (String × String)) :
    List String :=
  parent ++ reqEnv.foldl mergeStep []

/-- Modelled from the spec (§4.6 environment filter), for comparison with
`isBlockedEnvVar`: blocked means case-insensitively equal to one of the
eight listed exact names or carrying one of the two listed prefixes. -/
def specBlockedName (key : String) : Bool :=
  let upper := upStr key
  (["PATH", "BASH_ENV", "ENV", "SHELLOPTS", "BASHOPTS", "IFS", "CDPATH",
    "GLOBIGNORE"] : List String).contains upper ||
    strHasPrefix upper "LD_" || strHasPrefix upper "BASH_FUNC_"

/-- The spec-side acceptance predicate for a request environment key. -/
def specAcceptedKey (key : String) : Bool :=
  !strContainsChar key '=' && !strContainsChar key (Char.ofNat 0) &&
    !specBlockedName key

/-- The spec-side description of the merged environment: the inherited
environment followed by exactly the accepted request entries, in order. -/
def specMergedEnv (parent : List String) (reqEnv : List (String × String)) :
    List String :=
  parent ++ (reqEnv.filter (fun kv => specAcceptedKey kv.1)).map
    (fun kv => kv.1 ++ "=" ++ kv.2)

/-! ## Executor (`internal/executor`, `Executor.Run`) -/

/-- Outcome of `cmd.Wait()`: clean zero exit, an `exec.ExitError`
carrying the child's exit code, or any other (infrastructure) error. -/
inductive WaitOutcome
  | success
  | exited (code : Int)
  | failed (msg : String)
deriving DecidableEq

/-- Oracle for the external events inside `Executor.Run`: whether each
pipe creation and the spawn succeed, and how the reap ends. -/
structure ExecOracle where
  stdoutPipeErr : Option String
  stderrPipeErr : Option String
  startErr : Option String
  wait : WaitOutcome
deriving DecidableEq

/-- `Executor.Run`, step for step: pipe creation and `cmd.Start` failures
return `(-1, err)`; a clean `Wait` returns `(0, nil)`; an `ExitError`
returns the child's exit code with a nil error; any other `Wait` error is
wrapped as an infrastructure failure. -/
def executorRun (o : ExecOracle) : Int × Option String :=
  match o.stdoutPipeErr with
  | some e => (-1, some e)
  | none =>
    match o.stderrPipeErr with
    | some e => (-1, some e)
    | none =>
      match o.startErr with
      | some e => (-1, some e)
      | none =>
        match o.wait with
        | .success => (0, none)
        | .exited code => (code, none)
        | .failed m => (-1, some ("command failed: " ++ m))

/-- Does the oracle describe a spawn/IO infrastructure failure? -/
def isInfraFailure (o : ExecOracle) : Bool :=
  o.stdoutPipeErr.isSome || o.stderrPipeErr.isSome || o.startErr.isSome ||
    (match o.wait with | .failed _ => true | _ => false)

instance {ε α : Type} [DecidableEq ε] [DecidableEq α] :
    DecidableEq (Except ε α) := fun x y =>
  match x, y with
  | .error a, .error b =>
    decidable_of_iff (a = b)
      ⟨fun h => by rw [h], fun h => by injection h⟩
  | .error _, .ok _ => isFalse (fun h => by injection h)
  | .ok _, .error _ => isFalse (fun h => by injection h)
  | .ok a, .ok b =>
    decidable_of_iff (a = b)
      ⟨fun h => by rw [h], fun h => by injection h⟩

/-! ## Updater (`internal/updater`, `CheckUpdate` / `PerformUpdate`) -/

/-- A GitHub release (`updater.Release`); only the tag takes part in the
control flow we verify. -/
structure Release where
  tagName : String
deriving DecidableEq

/-- `updater.UpdateResult`. -/
structure UpdateResult where
  status : String
  currentVersion : String
  latestVersion : String
  message : String
deriving DecidableEq

/-- Oracle for the external operations of an update run: the release
fetch, cancellation observed at the pre-download check, platform asset
selection, download/extract, and the atomic replacement. -/
structure UpdEnv where
  latestRelease : Except String Release
  cancelledBeforeDownload : Bool
  assetForPlatform : Except String String
  downloadResult : Except String String
  replaceError : Option String
deriving DecidableEq

/-- `Updater.CheckUpdate`: fetch the latest release and compare versions;
returns the result and the error the Go function returns alongside it. -/
def checkUpdate (env : UpdEnv) (currentVersion : String) :
    UpdateResult × Option String :=
  match env.latestRelease with
  | .error e =>
    (⟨"failed", currentVersion, "",
      "failed to fetch latest release: " ++ e⟩, some e)
  | .ok release =>
    if ¬ (isNewerVersion (normalizeVersion currentVersion)
        (normalizeVersion release.tagName)) then
      (⟨"current", currentVersion, release.tagName,
        "already running the latest version"⟩, none)
    else
      (⟨"available", currentVersion, release.tagName,
        "update available"⟩, none)

/-- `Updater.PerformUpdate`: returns the sequence of `onProgress`
calls (status, message), the final result, and the returned error. -/
def performUpdate (env : UpdEnv) (currentVersion : String) :
    List (String × String) × UpdateResult × Option String :=
  match env.latestRelease with
  | .error e =>
    ([("failed", "failed to fetch latest release: " ++ e)],
     ⟨"failed", currentVersion, "", "failed to fetch latest release: " ++ e⟩,
     some e)
  | .ok release =>
    if ¬ (isNewerVersion (normalizeVersion currentVersion)
        (normalizeVersion release.tagName)) then
      ([("current", "already running the latest version")],
       ⟨"current", currentVersion, release.tagName,
         "already running the latest version"⟩, none)
    else if env.cancelledBeforeDownload then
      ([],
       ⟨"failed", currentVersion, release.tagName, "update cancelled"⟩,
       some "context canceled")
    else
      match env.assetForPlatform with
      | .error e =>
        ([("failed", "no compatible binary found: " ++ e)],
         ⟨"failed", currentVersion, release.tagName,
           "no compatible binary found: " ++ e⟩, some e)
      | .ok assetName =>
        let dl := [("downloading", "downloading " ++ assetName)]
        match env.downloadResult with
        | .error e =>
          (dl ++ [("failed", "download/extract failed: " ++ e)],
           ⟨"failed", currentVersion, release.tagName,
             "download/extract failed: " ++ e⟩, some e)
        | .ok _ =>
          match env.replaceError with
          | some e =>
            (dl ++ [("failed", "failed to replace binary: " ++ e)],
             ⟨"failed", currentVersion, release.tagName,
               "failed to replace binary: " ++ e⟩, some e)
          | none =>
            (dl ++ [("applied", "updated")],
             ⟨"applied", currentVersion, release.tagName, "updated"⟩, none)

/-! ## Connection handler (`internal/server/handler.go`) -/

/-- A response record written to the connection (`protocol.Response`,
restricted to the constructors the handler uses). -/
inductive Rec
  | stdout (data : String)
  | stderr (data : String)
  | exit (code : Int)
  | error (message : String)
  | version (currentVersion : String)
  | update (status currentVersion latestVersion message : String)
deriving DecidableEq

/-- The per-server immutable data the handler consults. -/
structure ServerInfo where
  version : String
  binaryPath : String
deriving DecidableEq

/-- Outcome of the executor as seen by the handler: the stream of
stdout/stderr chunks delivered through the callbacks (`true` marks a
stdout chunk) and the final `(exitCode, err)` of `Run`, as an
`Except`. -/
structure ExecOutcome where
  chunks : List (Bool × String)
  result : Except String Int
deriving DecidableEq

/-- Oracle for one accepted connection: the parse outcome, the executor
outcome for the command path, and the updater oracle for the action
paths. -/
structure HandlerEnv where
  parse : Except String Request
  exec : ExecOutcome
  upd : UpdEnv
deriving DecidableEq

/-- Stdout/stderr chunks as written by the handler's callbacks. -/
def chunkRecs (chunks : List (Bool × String)) : List Rec :=
  chunks.map (fun c => if c.1 then Rec.stdout c.2 else Rec.stderr c.2)

/-- `handleCheckUpdate`: refuse when no binary path is configured,
otherwise report the check result as a single `Update` record. -/
def handleCheckUpdate (env : UpdEnv) (srv : ServerInfo) : List Rec :=
  if srv.binaryPath = "" then
    [Rec.update "failed" srv.version ""
      "update not supported: binary path not configured"]
  else
    let result := (checkUpdate env srv.version).1
    [Rec.update result.status result.currentVersion result.latestVersion
      result.message]

/-- `handleUpdate`: refuse when no binary path is configured; otherwise
forward every progress callback as an `Update` record (with the server's
version and an empty latest version), and on a successful non-current
update append the `restarting` record. -/
def handleUpdate (env : UpdEnv) (srv : ServerInfo) : List Rec :=
  if srv.binaryPath = "" then
    [Rec.update "failed" srv.version ""
      "update not supported: binary path not configured"]
  else
    let out := performUpdate env srv.version
    let recs := out.1.map (fun c => Rec.update c.1 srv.version "" c.2)
    match out.2.2 with
    | some _ => recs
    | none =>
      if out.2.1.status = "current" then recs
      else
        recs ++ [Rec.update "restarting" out.2.1.currentVersion
          out.2.1.latestVersion "service will restart momentarily"]

/-- `handleAction`: dispatch on the action string, with the defensive
default branch for unknown actions. -/
def handleAction (env : UpdEnv) (req : Request) (srv : ServerInfo) :
    List Rec :=
  if req.action = "version" then [Rec.version srv.version]
  else if req.action = "check-update" then handleCheckUpdate env srv
  else if req.action = "update" then handleUpdate env srv
  else [Rec.error ("unknown action: " ++ req.action)]

/-- `handleConnection`: on a parse failure write one `Error` record;
when the request carries a non-empty action, dispatch to `handleAction`;
otherwise run the command, stream its chunks, and finish with `Error` on
an infrastructure failure or `Exit` with the child's code. -/
def handleConnection (env : HandlerEnv) (srv : ServerInfo) : List Rec :=
  match env.parse with
  | .error e => [Rec.error e]
  | .ok req =>
    if req.action ≠ "" then handleAction env.upd req srv
    else
      chunkRecs env.exec.chunks ++
        (match env.exec.result with
         | .error e => [Rec.error e]
         | .ok code => [Rec.exit code])

/-- The terminal-record predicate exactly as the claim words it:
`Exit`, `Error`, `Version`, or an `Update` whose status is `current`,
`applied`, `restarting`, or `failed`. -/
def claimTerminal : Rec → Bool
  | .exit _ => true
  | .error _ => true
  | .version _ => true
  | .update s _ _ _ => s = "current" ∨ s = "applied" ∨ s = "restarting" ∨ s = "failed"
  | _ => false

/-- The corrected terminal-record predicate: `applied` (always followed
by `restarting` on the same connection) is replaced by `available` (the
terminal status of a `check-update` report). -/
def finalStatusRecord : Rec → Bool
  | .exit _ => true
  | .error _ => true
  | .version _ => true
  | .update s _ _ _ => s = "current" ∨ s = "available" ∨ s = "restarting" ∨ s = "failed"
  | _ => false

/-- An update run hits the silent cancellation path: the binary path is
configured, the release fetch succeeds, the release is newer, and the
context is already cancelled at the pre-download check.  There
`PerformUpdate` returns an error without calling `onProgress`, and
`handleUpdate` only logs, so nothing is written. -/
def updateRunsCancelled (upd : UpdEnv) (srv : ServerInfo) : Bool :=
  ¬ srv.binaryPath = "" &&
    (match upd.latestRelease with
     | .error _ => false
     | .ok release =>
       isNewerVersion (normalizeVersion srv.version)
         (normalizeVersion release.tagName) &&
         upd.cancelledBeforeDownload)

/-- The one handler path that writes nothing at all: a full `update`
action on the silent cancellation path. -/
def updateCancelledSilently (env : HandlerEnv) (srv : ServerInfo) : Bool :=
  match env.parse with
  | .error _ => false
  | .ok req => req.action = "update" && updateRunsCancelled env.upd srv

/-- The statuses of the `Update` records in a trace, in order. -/
def updateStatuses (recs : List Rec) : List String :=
  recs.filterMap (fun r =>
    match r with
    | .update s _ _ _ => some s
    | _ => none)

/-- Is a record an `Exit` record? -/
def isExitRec : Rec → Bool
  | .exit _ => true
  | _ => false

/-! ## Lexical path processing (`path/filepath` on Unix) and
`sanitizePath` / `AtomicReplace` (`internal/updater`) -/

/-- Is the path absolute (begins with `/`)? -/
def isAbsPath (s : String) : Bool :=
  match s.data with
  | '/' :: _ => true
  | _ => false

/-- The component-processing loop of `filepath.Clean` (lexical cleaning):
drop empty and `.` components; on `..` pop a previous component when one
is available, drop the `..` at the root, and keep it in a relative path
with nothing left to pop.  The output stack is built in reverse. -/
def cleanComps (abs : Bool) (comps : List (List Char)) : List (List Char) :=
  comps.foldl (fun acc c =>
    if c = [] ∨ c = ['.'] then acc
    else if c = ['.', '.'] then
      match acc with
      | [] => if abs then [] else [['.', '.']]
      | x :: rest => if x = ['.', '.'] then c :: x :: rest else rest
    else c :: acc) []

/-- Join components with `/`. -/
def intercalateSlash : List (List Char) → List Char
  | [] => []
  | [c] => c
  | c :: cs => c ++ '/' :: intercalateSlash cs

/-- `filepath.Clean` on Unix. -/
def pathClean (s : String) : String :=
  if isAbsPath s then
    match (cleanComps true (splitCharList '/' s.data)).reverse with
    | [] => "/"
    | out => ⟨'/' :: intercalateSlash out⟩
  else
    match (cleanComps false (splitCharList '/' s.data)).reverse with
    | [] => "."
    | out => ⟨intercalateSlash out⟩

/-- `filepath.Join` of two elements: drop empty elements, join with `/`,
and clean the result. -/
def pathJoin (a b : String) : String :=
  if a = "" ∧ b = "" then ""
  else if a = "" then pathClean b
  else if b = "" then pathClean a
  else pathClean ⟨a.data ++ '/' :: b.data⟩

/-- `filepath.Base` on Unix: strip trailing slashes and keep the last
component (`"."` for the empty path, `"/"` when nothing remains). -/
def pathBase (s : String) : String :=
  if s = "" then "."
  else
    let t := (s.data.reverse.dropWhile (· = '/')).reverse
    let leaf := (t.reverse.takeWhile (fun c => ¬ c = '/')).reverse
    if leaf = [] then "/" else ⟨leaf⟩

/-- `filepath.Dir` on Unix: everything up to and including the last
slash, cleaned (`"."` when there is no slash). -/
def pathDir (s : String) : String :=
  pathClean ⟨(s.data.reverse.dropWhile (fun c => ¬ c = '/')).reverse⟩

/-- `sanitizePath` prevents path traversal: clean the name, reject a
cleaned name beginning with `..` or `/`, join with the base, and reject
a result that is neither the cleaned base itself nor under it. -/
def sanitizePath (base name : String) : Except String String :=
  let cleaned := pathClean name
  if strHasPrefix cleaned ".." = true ∨ strHasPrefix cleaned "/" = true then
    .error ("invalid path: " ++ name)
  else
    let full := pathJoin base cleaned
    if ¬ strHasPrefix full (pathClean base ++ "/") = true ∧
        ¬ full = pathClean base then
      .error ("path escapes base directory: " ++ name)
    else
      .ok full

/-- The sibling temporary path `AtomicReplace` uses:
`filepath.Join(Dir(target), "."+Base(target)+".new")`. -/
def tempPathFor (target : String) : String :=
  pathJoin (pathDir target) ("." ++ pathBase target ++ ".new")

/-- A file in the filesystem model: contents, executable bit, owner. -/
structure FSFile where
  content : List Nat
  exec : Bool
  uid : Nat
  gid : Nat
deriving DecidableEq

/-- A filesystem: an association list from paths to files. -/
abbrev FS : Type := List (String × FSFile)

def fsLookup (fs : FS) (p : String) : Option FSFile :=
  match fs with
  | [] => none
  | (q, f) :: rest => if q = p then some f else fsLookup rest p

def fsRemove (fs : FS) (p : String) : FS :=
  fs.filter (fun e => ¬ e.1 = p)

def fsInsert (fs : FS) (p : String) (f : FSFile) : FS :=
  (p, f) :: fsRemove fs p

/-- `minBinarySize` (100 KiB). -/
def minBinarySize : Nat := 100 * 1024

/-- `ValidateBinary`: stat, then minimum size, then the executable bit. -/
def validateBinary (fs : FS) (p : String) : Option String :=
  match fsLookup fs p with
  | none => some "stat binary: no such file or directory"
  | some f =>
    if f.content.length < minBinarySize then some "binary too small"
    else if f.exec = false then some "binary is not executable"
    else none

/-- Oracle for the fallible filesystem calls inside `AtomicReplace` whose
outcome the model does not derive from the filesystem state itself. -/
structure ReplaceOracle where
  openSrcFails : Bool
  statSrcFails : Bool
  openTempFails : Bool
  copyFails : Bool
  renameFails : Bool
  chownFails : Bool
deriving DecidableEq

/-- `AtomicReplace`, step for step: validate the source; remove any stale
sibling temp file; open and stat the source; create the temp file with
the source's mode; copy (removing the temp on failure); validate the
copy (removing the temp on failure); best-effort chown of the temp to
the target's owner; rename over the target (removing the temp on
failure). -/
def atomicReplace (o : ReplaceOracle) (fs : FS) (srcPath targetPath : String) :
    Except String Unit × FS :=
  match validateBinary fs srcPath with
  | some e => (.error ("validating source binary: " ++ e), fs)
  | none =>
    let tempPath := tempPathFor targetPath
    let fs1 := fsRemove fs tempPath
    if o.openSrcFails then (.error "opening source", fs1)
    else
      match fsLookup fs1 srcPath with
      | none => (.error "opening source", fs1)
      | some srcFile =>
        if o.statSrcFails then (.error "stat source", fs1)
        else if o.openTempFails then (.error "creating temp file", fs1)
        else
          let fs2 := fsInsert fs1 tempPath ⟨[], srcFile.exec, 0, 0⟩
          if o.copyFails then (.error "copying binary", fsRemove fs2 tempPath)
          else
            let fs3 := fsInsert fs2 tempPath ⟨srcFile.content, srcFile.exec, 0, 0⟩
            match validateBinary fs3 tempPath with
            | some e =>
              (.error ("validating copied binary: " ++ e), fsRemove fs3 tempPath)
            | none =>
              let fs4 :=
                match fsLookup fs3 targetPath with
                | some targetFile =>
                  if o.chownFails then fs3
                  else fsInsert fs3 tempPath
                    ⟨srcFile.content, srcFile.exec, targetFile.uid, targetFile.gid⟩
                | none => fs3
              if o.renameFails then (.error "atomic rename", fsRemove fs4 tempPath)
              else
                match fsLookup fs4 tempPath with
                | some tempFile =>
                  (.ok (), fsRemove (fsInsert fs4 targetPath tempFile) tempPath)
                | none => (.ok (), fs4)

/-! ## Concrete sample data for counterexamples and witnesses -/

/-- A server running version 1.0.0 with a configured binary path. -/
def srvSample : ServerInfo :=
  ⟨"1.0.0", "/usr/local/bin/vito-root-service"⟩

/-- An update oracle on which every external step succeeds and release
v1.0.1 is available. -/
def updSuccess : UpdEnv :=
  ⟨.ok ⟨"v1.0.1"⟩, false, .ok "vito-root-service-linux-amd64.tar.gz",
   .ok "/tmp/vito-update/vito-root-service", none⟩

/-- An update oracle whose release fetch fails. -/
def updFetchFail : UpdEnv :=
  ⟨.error "connection refused", false, .ok "", .ok "", none⟩

/-- A parsed full-update request. -/
def reqUpdate : Request := ⟨"", "update", [], ""⟩

/-- A handler oracle for a fully successful `update` action. -/
def envUpdateSuccess : HandlerEnv := ⟨.ok reqUpdate, ⟨[], .ok 0⟩, updSuccess⟩

/-- A handler oracle for an `update` action whose release fetch fails. -/
def envUpdateFetchFail : HandlerEnv := ⟨.ok reqUpdate, ⟨[], .ok 0⟩, updFetchFail⟩

/-- A parsed command request. -/
def reqCmd : Request := ⟨"false", "", [], ""⟩

/-- A handler oracle for a command whose spawn fails after a partial
stdout chunk. -/
def envCmdInfraFail : HandlerEnv :=
  ⟨.ok reqCmd, ⟨[(true, "partial")], .error "spawn failed"⟩, updSuccess⟩

/-- A parsed request carrying BOTH a non-empty command and a valid
action. -/
def reqBothFields : Request := ⟨"rm -rf /tmp/x", "version", [], ""⟩

/-!
# Theorems
-/

theorem splitCharList_ne_nil (sep : Char) (l : List Char) :
    splitCharList sep l ≠ [] := by
  induction l with
  | nil => simp [splitCharList]
  | cons c cs ih =>
    simp only [splitCharList]
    split
    · simp
    · cases h : splitCharList sep cs with
      | nil => simp
      | cons g gs => simp

example : normalizeVersion "  v1.2.3  " = "1.2.3" := by decide
example : parseVersion "1.0.0-beta" = [1, 0, 0] := by decide
example : parseVersion "2.0" = [2, 0] := by decide
example : isNewerVersion "1.0.0" "1.0.1" = true := by decide
example : isNewerVersion "0.1.10" "0.1.9" = false := by decide
example : isNewerVersion "0.1.9" "0.1.10" = true := by decide
example : isNewerVersion "dev" "1.0.0" = true := by decide
example : isNewerVersion "1.0.0" "dev" = false := by decide
example : isNewerVersion "" "1.0.0" = true := by decide
example : isNewerVersion "1.0.0" "1.0.0" = false := by decide

/-! ### Order-theoretic lemmas about the comparison loop -/

theorem verLt_irrefl (l : List Nat) : verLt l l = false := by
  induction l with
  | nil => rfl
  | cons x xs ih => simp [verLt, ih]

theorem verLt_nil_right (l : List Nat) : verLt l [] = false := by
  cases l <;> rfl

theorem verLt_trans : ∀ a b c : List Nat,
    verLt a b = true → verLt b c = true → verLt a c = true := by
  intro a
  induction a with
  | nil =>
    intro b c hab hbc
    cases b with
    | nil => exact hbc
    | cons y ys =>
      cases c with
      | nil => simp [verLt_nil_right] at hbc
      | cons z zs => rfl
  | cons x xs ih =>
    intro b c hab hbc
    cases b with
    | nil => simp [verLt_nil_right] at hab
    | cons y ys =>
      cases c with
      | nil => simp [verLt_nil_right] at hbc
      | cons z zs =>
        simp only [verLt] at hab hbc ⊢
        rcases Nat.lt_trichotomy x y with hxy | hxy | hxy
        · rcases Nat.lt_trichotomy y z with hyz | hyz | hyz
          · simp [Nat.lt_trans hxy hyz]
          · subst hyz
            simp [hxy]
          · rw [if_neg (Nat.lt_asymm hyz), if_pos hyz] at hbc
            simp at hbc
        · subst hxy
          rw [if_neg (Nat.lt_irrefl x), if_neg (Nat.lt_irrefl x)] at hab
          rcases Nat.lt_trichotomy x z with hxz | hxz | hxz
          · simp [hxz]
          · subst hxz
            rw [if_neg (Nat.lt_irrefl x), if_neg (Nat.lt_irrefl x)] at hbc
            rw [if_neg (Nat.lt_irrefl x), if_neg (Nat.lt_irrefl x)]
            exact ih ys zs hab hbc
          · rw [if_neg (Nat.lt_asymm hxz), if_pos hxz] at hbc
            simp at hbc
        · rw [if_neg (Nat.lt_asymm hxy), if_pos hxy] at hab
          simp at hab

theorem verLt_eq_of_not_lt : ∀ a b : List Nat,
    verLt a b = false → verLt b a = false → a = b := by
  intro a
  induction a with
  | nil =>
    intro b hab _
    cases b with
    | nil => rfl
    | cons y ys => simp [verLt] at hab
  | cons x xs ih =>
    intro b hab hba
    cases b with
    | nil => simp [verLt] at hba
    | cons y ys =>
      simp only [verLt] at hab hba
      by_cases hxy : x < y
      · simp [hxy] at hab
      · by_cases hyx : y < x
        · simp [hyx, Nat.lt_asymm hyx] at hba
        · have hxyeq : x = y := Nat.le_antisymm (Nat.le_of_not_lt hyx) (Nat.le_of_not_lt hxy)
          subst hxyeq
          simp [Nat.lt_irrefl] at hab hba
          rw [ih ys hab hba]

/-- A version list compared against `[0]` (the parse of `""` or `"dev"`)
is never "older": `[0]` is the minimum non-empty parse result. -/
theorem verLt_single_zero (x : Nat) (xs : List Nat) :
    verLt (x :: xs) [0] = false := by
  simp only [verLt]
  have hx : ¬ x < 0 := Nat.not_lt_zero x
  by_cases h0 : 0 < x
  · simp [hx, h0]
  · have : x = 0 := Nat.eq_zero_of_le_zero (Nat.le_of_not_lt h0)
    subst this
    simp [verLt_nil_right]

theorem parseVersion_ne_nil (v : String) : parseVersion v ≠ [] := by
  unfold parseVersion
  intro h
  exact splitCharList_ne_nil '.' v.data (List.map_eq_nil_iff.mp h)

theorem parseVersion_empty : parseVersion "" = [0] := by decide

theorem parseVersion_dev : parseVersion "dev" = [0] := by decide

theorem isNewerVersion_eq (current latest : String) :
    isNewerVersion current latest =
      if isDevOrEmpty current then !(isDevOrEmpty latest)
      else verLt (parseVersion current) (parseVersion latest) := by
  unfold isNewerVersion isDevOrEmpty
  by_cases h1 : current = "" <;> by_cases h2 : current = "dev" <;>
    by_cases h3 : latest = "" <;> by_cases h4 : latest = "dev" <;>
      simp [h1, h2, h3, h4]

/-- If `current` is a normal version and `latest` is empty or `"dev"`,
then `latest` is not newer. -/
theorem not_newer_of_special_latest (current latest : String)
    (hc : isDevOrEmpty current = false) (hl : isDevOrEmpty latest = true) :
    isNewerVersion current latest = false := by
  rw [isNewerVersion_eq, hc]
  simp only [Bool.false_eq_true, if_false]
  have hpl : parseVersion latest = [0] := by
    unfold isDevOrEmpty at hl
    simp only [decide_eq_true_eq] at hl
    rcases hl with h | h <;> subst h
    · exact parseVersion_empty
    · exact parseVersion_dev
  rw [hpl]
  cases hp : parseVersion current with
  | nil => exact absurd hp (parseVersion_ne_nil current)
  | cons x xs => exact verLt_single_zero x xs

/-- If `isNewerVersion a b` holds and `a` is a normal version, then `b` is
also a normal version and the comparison loop accepted it. -/
theorem newer_of_normal (a b : String) (ha : isDevOrEmpty a = false)
    (h : isNewerVersion a b = true) :
    isDevOrEmpty b = false ∧ verLt (parseVersion a) (parseVersion b) = true := by
  by_cases hb : isDevOrEmpty b = true
  · rw [not_newer_of_special_latest a b ha hb] at h
    cases h
  · have hb' : isDevOrEmpty b = false := by
      cases hbe : isDevOrEmpty b
      · rfl
      · exact absurd hbe hb
    refine ⟨hb', ?_⟩
    rw [isNewerVersion_eq, ha] at h
    simpa using h

/-- Two versions are incomparable exactly when both are in the special
class, or both are normal and parse to the same numeric parts. -/
theorem incomparable_iff (a b : String) :
    (isNewerVersion a b = false ∧ isNewerVersion b a = false) ↔
      ((isDevOrEmpty a = true ∧ isDevOrEmpty b = true) ∨
       (isDevOrEmpty a = false ∧ isDevOrEmpty b = false ∧
         parseVersion a = parseVersion b)) := by
  constructor
  · rintro ⟨hab, hba⟩
    cases ha : isDevOrEmpty a <;> cases hb : isDevOrEmpty b
    · right
      refine ⟨rfl, rfl, ?_⟩
      rw [isNewerVersion_eq, ha] at hab
      rw [isNewerVersion_eq, hb] at hba
      simp only [Bool.false_eq_true, if_false] at hab hba
      exact verLt_eq_of_not_lt _ _ hab hba
    · rw [isNewerVersion_eq, hb] at hba
      simp [ha] at hba
    · rw [isNewerVersion_eq, ha] at hab
      simp [hb] at hab
    · left
      exact ⟨rfl, rfl⟩
  · rintro (⟨ha, hb⟩ | ⟨ha, hb, hpv⟩)
    · constructor <;> (rw [isNewerVersion_eq]; simp [ha, hb])
    · constructor
      · rw [isNewerVersion_eq, ha]
        simp [hpv, verLt_irrefl]
      · rw [isNewerVersion_eq, hb]
        simp [hpv, verLt_irrefl]

/-- C9: the version comparison `isNewerVersion` is a strict weak ordering
on version strings: it is irreflexive (in particular
`isNewerVersion a a = false` for every `a`, including `""` and `"dev"`),
asymmetric, transitive, and its incomparability relation is transitive. -/
theorem isNewerVersion_strict_weak_order :
    (∀ a : String, isNewerVersion a a = false) ∧
    (∀ a b : String, isNewerVersion a b = true → isNewerVersion b a = false) ∧
    (∀ a b c : String, isNewerVersion a b = true → isNewerVersion b c = true →
      isNewerVersion a c = true) ∧
    (∀ a b c : String,
      isNewerVersion a b = false ∧ isNewerVersion b a = false →
      isNewerVersion b c = false ∧ isNewerVersion c b = false →
      isNewerVersion a c = false ∧ isNewerVersion c a = false) := by
  have irrefl : ∀ a : String, isNewerVersion a a = false := by
    intro a
    rw [isNewerVersion_eq]
    cases h : isDevOrEmpty a
    · simp [verLt_irrefl]
    · simp
  have tr : ∀ a b c : String, isNewerVersion a b = true →
      isNewerVersion b c = true → isNewerVersion a c = true := by
    intro a b c hab hbc
    rw [isNewerVersion_eq]
    cases ha : isDevOrEmpty a
    · obtain ⟨hb, hvab⟩ := newer_of_normal a b ha hab
      obtain ⟨_, hvbc⟩ := newer_of_normal b c hb hbc
      simp only [Bool.false_eq_true, if_false]
      exact verLt_trans _ _ _ hvab hvbc
    · rw [isNewerVersion_eq, ha] at hab
      simp only [if_true] at hab
      have hb : isDevOrEmpty b = false := by
        cases hbe : isDevOrEmpty b
        · rfl
        · rw [hbe] at hab
          simp at hab
      obtain ⟨hc, _⟩ := newer_of_normal b c hb hbc
      simp [hc]
  have asymm : ∀ a b : String, isNewerVersion a b = true →
      isNewerVersion b a = false := by
    intro a b hab
    cases hba : isNewerVersion b a
    · rfl
    · have := tr a b a hab hba
      rw [irrefl a] at this
      cases this
  refine ⟨irrefl, asymm, tr, ?_⟩
  intro a b c h1 h2
  rw [incomparable_iff] at h1 h2 ⊢
  rcases h1 with ⟨ha, hb⟩ | ⟨ha, hb, hab⟩
  · rcases h2 with ⟨_, hc⟩ | ⟨hb', _, _⟩
    · left
      exact ⟨ha, hc⟩
    · rw [hb] at hb'
      cases hb'
  · rcases h2 with ⟨hb', _⟩ | ⟨_, hc, hbc⟩
    · rw [hb'] at hb
      cases hb
    · right
      exact ⟨ha, hc, hab.trans hbc⟩

/-! ### Protocol framing and validation (C2, C8) -/

theorem takeLine_eq_none (l : List Nat)
    (h : l.all (fun b => ¬ b = 10) = true) : takeLine l = none := by
  induction l with
  | nil => rfl
  | cons b bs ih =>
    simp only [List.all_cons, Bool.and_eq_true, decide_eq_true_eq] at h
    simp [takeLine, h.1, ih h.2]

/-- C8: for a stream whose first 10 MiB contain no newline, `ParseRequest`
fails with the size-exceeded error when the stream carries at least the
full 10 MiB, and with the framing (read) error when the stream is shorter
than the limit. -/
theorem parse_request_size_errors (decode : List Nat → Option Request)
    (input : List Nat)
    (hnl : (input.take MaxRequestSize).all (fun b => ¬ b = 10) = true) :
    (MaxRequestSize ≤ input.length →
      ParseRequestModel decode input = .error .tooLarge) ∧
    (input.length < MaxRequestSize →
      ParseRequestModel decode input = .error .readFailed) := by
  have hline : takeLine (input.take MaxRequestSize) = none :=
    takeLine_eq_none _ hnl
  constructor
  · intro hlen
    unfold ParseRequestModel readRequestLine
    rw [hline]
    simp [hlen]
  · intro hlen
    unfold ParseRequestModel readRequestLine
    rw [hline]
    simp [Nat.not_le_of_lt hlen]

theorem all_ne_newline_replicate (n : Nat) :
    (List.replicate n (65 : Nat)).all (fun b => ¬ b = 10) = true := by
  induction n with
  | zero => rfl
  | succ n ih => simp [List.replicate_succ, ih]

/-- Witness for C8 at a 10 MiB newline-free stream and a 1-byte stream. -/
theorem parse_request_size_errors_witness :
    (((List.replicate MaxRequestSize (65 : Nat)).take MaxRequestSize).all
        (fun b => ¬ b = 10) = true ∧
      MaxRequestSize ≤ (List.replicate MaxRequestSize (65 : Nat)).length ∧
      ParseRequestModel (fun _ => none) (List.replicate MaxRequestSize 65) =
        .error .tooLarge) ∧
    ((([65] : List Nat).take MaxRequestSize).all (fun b => ¬ b = 10) = true ∧
      ([65] : List Nat).length < MaxRequestSize ∧
      ParseRequestModel (fun _ => none) [65] = .error .readFailed) := by
  have h1 : ((List.replicate MaxRequestSize (65 : Nat)).take
      MaxRequestSize).all (fun b => ¬ b = 10) = true := by
    rw [List.take_replicate, Nat.min_self]
    exact all_ne_newline_replicate _
  have h2 : MaxRequestSize ≤ (List.replicate MaxRequestSize (65 : Nat)).length := by
    simp
  have h4 : (([65] : List Nat).take MaxRequestSize).all
      (fun b => ¬ b = 10) = true := by decide
  have h5 : ([65] : List Nat).length < MaxRequestSize := by decide
  exact ⟨⟨h1, h2, (parse_request_size_errors (fun _ => none) _ h1).1 h2⟩,
    ⟨h4, h5, (parse_request_size_errors (fun _ => none) _ h4).2 h5⟩⟩

/-- C2 counterexample: a request line carrying BOTH a non-empty `command`
and a non-empty (valid) `action` is accepted by `ParseRequest`, not
rejected as malformed. -/
theorem parse_request_both_fields_accepted :
    ("ls" : String) ≠ "" ∧ ("version" : String) ≠ "" ∧
    ParseRequestModel (fun _ => some ⟨"ls", "version", [], ""⟩) [10] =
      .ok ⟨"ls", "version", [], ""⟩ := by
  refine ⟨by decide, by decide, ?_⟩
  decide

/-- C2 (amended): for a well-formed request line within the limit,
`ParseRequest` succeeds iff AT LEAST ONE of `command`/`action` is
non-empty and, when `action` is non-empty, its value is one of `update`,
`check-update`, `version`.  (A request carrying both fields non-empty is
accepted; only a request carrying neither is rejected.) -/
theorem parse_request_validation (decode : List Nat → Option Request)
    (input line : List Nat) (req : Request)
    (hline : readRequestLine input = .ok line)
    (hdecode : decode line = some req) :
    (∃ r, ParseRequestModel decode input = .ok r) ↔
      (¬ (req.command = "" ∧ req.action = "") ∧
       (req.action ≠ "" →
         req.action = "update" ∨ req.action = "check-update" ∨
           req.action = "version")) := by
  have hm : ParseRequestModel decode input = validateRequest req := by
    unfold ParseRequestModel
    split
    · rename_i e he
      rw [hline] at he
      cases he
    · rename_i l he
      rw [hline] at he
      injection he with he'
      subst he'
      rw [hdecode]
  rw [hm]
  unfold validateRequest
  by_cases h1 : req.command = "" ∧ req.action = ""
  · simp [h1]
  · by_cases h2 : req.action = ""
    · have hcmd : ¬ req.command = "" := fun h => h1 ⟨h, h2⟩
      simp [h1, h2, hcmd]
    · by_cases h3 : req.action = "update" ∨ req.action = "check-update" ∨
          req.action = "version"
      · simp [h1, h2, h3]
      · simp [h1, h2, h3]

/-- Witness for C2 (amended) at a concrete command-only request. -/
theorem parse_request_validation_witness :
    readRequestLine [10] = .ok [10] ∧
    (∃ r, ParseRequestModel (fun _ => some ⟨"echo hello", "", [], ""⟩) [10] =
      .ok r) := by
  have h1 : readRequestLine [10] = .ok [10] := by decide
  have h2 : (fun (_ : List Nat) => some (⟨"echo hello", "", [], ""⟩ : Request)) [10] =
      some ⟨"echo hello", "", [], ""⟩ := rfl
  refine ⟨h1, ?_⟩
  exact (parse_request_validation (fun _ => some ⟨"echo hello", "", [], ""⟩)
    [10] [10] ⟨"echo hello", "", [], ""⟩ h1 h2).mpr (by decide)

/-! ### Environment filtering (C3) -/

theorem ne_of_prefix_mismatch (u v p : String)
    (hv : strHasPrefix v p = true) (h : strHasPrefix u p = false) :
    ¬ u = v := by
  intro heq
  rw [heq] at h
  rw [h] at hv
  cases hv

/-- The handler's blocklist predicate coincides with the spec's
characterization (the five exact `LD_*` names are subsumed by the `LD_`
prefix rule). -/
theorem isBlockedEnvVar_eq_spec (key : String) :
    isBlockedEnvVar key = specBlockedName key := by
  unfold isBlockedEnvVar specBlockedName
  generalize upStr key = u
  by_cases hld : strHasPrefix u "LD_" = true
  · simp [blockedEnvVars, blockedEnvPrefixes, hld]
  · rw [Bool.not_eq_true] at hld
    have p1 := ne_of_prefix_mismatch u "LD_PRELOAD" "LD_" (by decide) hld
    have p2 := ne_of_prefix_mismatch u "LD_LIBRARY_PATH" "LD_" (by decide) hld
    have p3 := ne_of_prefix_mismatch u "LD_AUDIT" "LD_" (by decide) hld
    have p4 := ne_of_prefix_mismatch u "LD_DEBUG" "LD_" (by decide) hld
    have p5 := ne_of_prefix_mismatch u "LD_PROFILE" "LD_" (by decide) hld
    simp [blockedEnvVars, blockedEnvPrefixes, hld, p1, p2, p3, p4, p5]

theorem specAcceptedKey_eq (k : String) :
    specAcceptedKey k =
      (!(strContainsChar k '=' || strContainsChar k (Char.ofNat 0)) &&
        !(isBlockedEnvVar k)) := by
  unfold specAcceptedKey
  rw [isBlockedEnvVar_eq_spec]
  cases strContainsChar k '=' <;> cases strContainsChar k (Char.ofNat 0) <;>
    cases specBlockedName k <;> rfl

theorem mergeEnv_foldl (reqEnv : List (String × String)) (acc : List String) :
    reqEnv.foldl mergeStep acc =
    acc ++ (reqEnv.filter (fun kv => specAcceptedKey kv.1)).map
      (fun kv => kv.1 ++ "=" ++ kv.2) := by
  induction reqEnv generalizing acc with
  | nil => simp
  | cons kv rest ih =>
    rw [List.foldl_cons, List.filter_cons]
    by_cases hc : (strContainsChar kv.1 '=' ||
        strContainsChar kv.1 (Char.ofNat 0)) = true
    · have hacc : specAcceptedKey kv.1 = false := by
        rw [specAcceptedKey_eq, hc]
        rfl
      rw [show mergeStep acc kv = acc from by unfold mergeStep; rw [if_pos hc]]
      rw [if_neg (by simp [hacc]), ih]
    · rw [Bool.not_eq_true] at hc
      by_cases hb : isBlockedEnvVar kv.1 = true
      · have hacc : specAcceptedKey kv.1 = false := by
          rw [specAcceptedKey_eq, hc, hb]
          rfl
        rw [show mergeStep acc kv = acc from by
          unfold mergeStep
          rw [if_neg (by simp [hc]), if_pos hb]]
        rw [if_neg (by simp [hacc]), ih]
      · rw [Bool.not_eq_true] at hb
        have hacc : specAcceptedKey kv.1 = true := by
          rw [specAcceptedKey_eq, hc, hb]
          rfl
        rw [show mergeStep acc kv = acc ++ [kv.1 ++ "=" ++ kv.2] from by
          unfold mergeStep
          rw [if_neg (by simp [hc]), if_neg (by simp [hb])]]
        rw [if_pos (by rw [hacc]), ih]
        simp

/-- C3: the environment passed to the subprocess is exactly the inherited
environment followed by the accepted request entries (appended after, so
a later duplicate key wins), where a request entry is accepted iff its key
contains neither `=` nor NUL and is not blocked in the spec's sense
(case-insensitively one of the eight exact names, or prefixed `LD_` or
`BASH_FUNC_`, the five listed `LD_*` names being instances of the prefix
rule). -/
theorem merged_env_characterization :
    (∀ (parent : List String) (reqEnv : List (String × String)),
      mergeEnv parent reqEnv = specMergedEnv parent reqEnv) ∧
    (∀ key : String, isBlockedEnvVar key = specBlockedName key) := by
  constructor
  · intro parent reqEnv
    unfold mergeEnv specMergedEnv
    rw [mergeEnv_foldl reqEnv []]
    simp
  · exact isBlockedEnvVar_eq_spec

example : pathClean "subdir/../binary" = "binary" := by decide
example : pathClean "/tmp/foo" = "/tmp/foo" := by decide
example : pathClean "" = "." := by decide
example : pathClean "/.." = "/" := by decide
example : pathClean "../a" = "../a" := by decide
example : pathClean "a//b/" = "a/b" := by decide
example : sanitizePath "/tmp/foo" "binary" = .ok "/tmp/foo/binary" := by decide
example : sanitizePath "/tmp/foo" "../etc/passwd" =
  .error "invalid path: ../etc/passwd" := by decide
example : sanitizePath "/tmp/foo" "/etc/passwd" =
  .error "invalid path: /etc/passwd" := by decide
example : sanitizePath "/tmp/foo" "subdir/binary" =
  .ok "/tmp/foo/subdir/binary" := by decide
example : tempPathFor "/usr/local/bin/app" = "/usr/local/bin/.app.new" := by
  decide

/-! ### Extraction path sanitizing (C5) -/

theorem pathClean_abs_slash (s : String) (h : isAbsPath s = true) :
    strHasPrefix (pathClean s) "/" = true := by
  unfold pathClean
  rw [h]
  simp only [if_true]
  cases hout : (cleanComps true (splitCharList '/' s.data)).reverse with
  | nil => decide
  | cons c cs => simp [strHasPrefix, List.isPrefixOf]

/-- C5 counterexample: a name CONTAINING `..` (as a middle component) is
accepted by `sanitizePath` — only a cleaned name that still begins with
`..` is rejected. -/
theorem sanitize_accepts_inner_dotdot :
    strContainsSub "subdir/../binary" ".." = true ∧
    sanitizePath "/tmp/foo" "subdir/../binary" = .ok "/tmp/foo/binary" := by
  decide

/-- C5 (amended): `sanitizePath` rejects every name whose cleaned form
begins with `..` and every absolute name, and every accepted name's
returned path is under the base (equal to the cleaned base or carrying
`cleanedBase + "/"` as a prefix); a name merely containing `..` in the
middle may be accepted once cleaning removes it. -/
theorem sanitize_path_guarantees (base name : String) :
    (strHasPrefix (pathClean name) ".." = true →
      sanitizePath base name = .error ("invalid path: " ++ name)) ∧
    (isAbsPath name = true →
      sanitizePath base name = .error ("invalid path: " ++ name)) ∧
    (∀ full, sanitizePath base name = .ok full →
      strHasPrefix full (pathClean base ++ "/") = true ∨
        full = pathClean base) := by
  refine ⟨?_, ?_, ?_⟩
  · intro h
    unfold sanitizePath
    rw [if_pos (Or.inl h)]
  · intro h
    unfold sanitizePath
    rw [if_pos (Or.inr (pathClean_abs_slash name h))]
  · intro full h
    unfold sanitizePath at h
    by_cases g1 : strHasPrefix (pathClean name) ".." = true ∨
        strHasPrefix (pathClean name) "/" = true
    · rw [if_pos g1] at h
      cases h
    · rw [if_neg g1] at h
      by_cases hp : strHasPrefix (pathJoin base (pathClean name))
          (pathClean base ++ "/") = true
      · rw [if_neg (fun hand => hand.1 hp)] at h
        injection h with h'
        subst h'
        exact Or.inl hp
      · by_cases hq : pathJoin base (pathClean name) = pathClean base
        · rw [if_neg (fun hand => hand.2 hq)] at h
          injection h with h'
          subst h'
          exact Or.inr hq
        · rw [if_pos ⟨hp, hq⟩] at h
          cases h

/-- Witness for C5 at the test vectors of the repository's own test
suite. -/
theorem sanitize_path_guarantees_witness :
    (strHasPrefix (pathClean "../etc/passwd") ".." = true ∧
      sanitizePath "/tmp/foo" "../etc/passwd" =
        .error ("invalid path: " ++ "../etc/passwd")) ∧
    (isAbsPath "/etc/passwd" = true ∧
      sanitizePath "/tmp/foo" "/etc/passwd" =
        .error ("invalid path: " ++ "/etc/passwd")) ∧
    (sanitizePath "/tmp/foo" "subdir/binary" = .ok "/tmp/foo/subdir/binary" ∧
      (strHasPrefix "/tmp/foo/subdir/binary" (pathClean "/tmp/foo" ++ "/") =
          true ∨
        "/tmp/foo/subdir/binary" = pathClean "/tmp/foo")) := by
  refine ⟨⟨by decide, ?_⟩, ⟨by decide, ?_⟩, ⟨by decide, ?_⟩⟩
  · exact (sanitize_path_guarantees "/tmp/foo" "../etc/passwd").1 (by decide)
  · exact (sanitize_path_guarantees "/tmp/foo" "/etc/passwd").2.1 (by decide)
  · exact (sanitize_path_guarantees "/tmp/foo" "subdir/binary").2.2 _
      (by decide)

/-! ### Atomic replacement safety (C6) -/

theorem fsLookup_fsRemove (fs : FS) (p q : String) :
    fsLookup (fsRemove fs p) q = if q = p then none else fsLookup fs q := by
  induction fs with
  | nil => simp [fsRemove, fsLookup]
  | cons e rest ih =>
    rcases e with ⟨k, f⟩
    by_cases hk : k = p
    · subst hk
      rw [show fsRemove ((k, f) :: rest) k = fsRemove rest k from by
        simp [fsRemove, List.filter_cons]]
      rw [ih]
      by_cases hq : q = k
      · simp [hq]
      · have hkq : ¬ k = q := fun h => hq h.symm
        simp [hq, fsLookup, hkq]
    · rw [show fsRemove ((k, f) :: rest) p = (k, f) :: fsRemove rest p from by
        simp [fsRemove, List.filter_cons, hk]]
      by_cases hq : q = p
      · subst hq
        have hkq : ¬ k = q := hk
        simp [fsLookup, hkq, ih]
      · simp [fsLookup, ih, hq]

theorem fsLookup_fsInsert (fs : FS) (p q : String) (f : FSFile) :
    fsLookup (fsInsert fs p f) q = if p = q then some f else fsLookup fs q := by
  unfold fsInsert
  by_cases hp : p = q
  · simp [fsLookup, hp]
  · have hqp : ¬ q = p := fun h => hp h.symm
    simp [fsLookup, hp, fsLookup_fsRemove, hqp]

/-- C6: whenever `AtomicReplace` returns an error, the target file is
unchanged (only the single final rename modifies the target), and no
sibling temporary file is left behind (assuming none pre-existed and the
derived temp path is distinct from the target). -/
theorem atomic_replace_error_safety (o : ReplaceOracle) (fs : FS)
    (srcPath targetPath : String) (e : String)
    (hne : ¬ tempPathFor targetPath = targetPath)
    (herr : (atomicReplace o fs srcPath targetPath).1 = .error e) :
    fsLookup (atomicReplace o fs srcPath targetPath).2 targetPath =
      fsLookup fs targetPath ∧
    (fsLookup fs (tempPathFor targetPath) = none →
      fsLookup (atomicReplace o fs srcPath targetPath).2
        (tempPathFor targetPath) = none) := by
  have htq : ¬ targetPath = tempPathFor targetPath := fun h => hne h.symm
  unfold atomicReplace at herr ⊢
  cases hv : validateBinary fs srcPath with
  | some msg =>
    simp only [hv]
    simp
  | none =>
    simp only [hv] at herr ⊢
    by_cases ho : o.openSrcFails = true
    · simp only [ho, if_true] at herr ⊢
      refine ⟨?_, fun _ => ?_⟩
      · rw [fsLookup_fsRemove, if_neg htq]
      · rw [fsLookup_fsRemove, if_pos rfl]
    · rw [Bool.not_eq_true] at ho
      simp only [ho, Bool.false_eq_true, if_false] at herr ⊢
      cases hsrc : fsLookup (fsRemove fs (tempPathFor targetPath)) srcPath with
      | none =>
        simp only [hsrc] at herr ⊢
        refine ⟨?_, fun _ => ?_⟩
        · rw [fsLookup_fsRemove, if_neg htq]
        · rw [fsLookup_fsRemove, if_pos rfl]
      | some srcFile =>
        simp only [hsrc] at herr ⊢
        by_cases hst : o.statSrcFails = true
        · simp only [hst, if_true] at herr ⊢
          refine ⟨?_, fun _ => ?_⟩
          · rw [fsLookup_fsRemove, if_neg htq]
          · rw [fsLookup_fsRemove, if_pos rfl]
        · rw [Bool.not_eq_true] at hst
          simp only [hst, Bool.false_eq_true, if_false] at herr ⊢
          by_cases hot : o.openTempFails = true
          · simp only [hot, if_true] at herr ⊢
            refine ⟨?_, fun _ => ?_⟩
            · rw [fsLookup_fsRemove, if_neg htq]
            · rw [fsLookup_fsRemove, if_pos rfl]
          · rw [Bool.not_eq_true] at hot
            simp only [hot, Bool.false_eq_true, if_false] at herr ⊢
            by_cases hcf : o.copyFails = true
            · simp only [hcf, if_true] at herr ⊢
              refine ⟨?_, fun _ => ?_⟩
              · rw [fsLookup_fsRemove, if_neg htq, fsLookup_fsInsert,
                  if_neg hne, fsLookup_fsRemove, if_neg htq]
              · rw [fsLookup_fsRemove, if_pos rfl]
            · rw [Bool.not_eq_true] at hcf
              simp only [hcf, Bool.false_eq_true, if_false] at herr ⊢
              cases hvc : validateBinary
                  (fsInsert (fsInsert (fsRemove fs (tempPathFor targetPath))
                      (tempPathFor targetPath) ⟨[], srcFile.exec, 0, 0⟩)
                    (tempPathFor targetPath)
                    ⟨srcFile.content, srcFile.exec, 0, 0⟩)
                  (tempPathFor targetPath) with
              | some msg =>
                simp only [hvc] at herr ⊢
                refine ⟨?_, fun _ => ?_⟩
                · rw [fsLookup_fsRemove, if_neg htq, fsLookup_fsInsert,
                    if_neg hne, fsLookup_fsInsert, if_neg hne,
                    fsLookup_fsRemove, if_neg htq]
                · rw [fsLookup_fsRemove, if_pos rfl]
              | none =>
                simp only [hvc] at herr ⊢
                by_cases hrf : o.renameFails = true
                · simp only [hrf, if_true] at herr ⊢
                  cases htgt : fsLookup
                      (fsInsert (fsInsert (fsRemove fs (tempPathFor targetPath))
                          (tempPathFor targetPath) ⟨[], srcFile.exec, 0, 0⟩)
                        (tempPathFor targetPath)
                        ⟨srcFile.content, srcFile.exec, 0, 0⟩)
                      targetPath with
                  | none =>
                    simp only [htgt] at herr ⊢
                    refine ⟨?_, fun _ => ?_⟩
                    · rw [fsLookup_fsRemove, if_neg htq, fsLookup_fsInsert,
                        if_neg hne, fsLookup_fsInsert, if_neg hne,
                        fsLookup_fsRemove, if_neg htq]
                    · rw [fsLookup_fsRemove, if_pos rfl]
                  | some targetFile =>
                    simp only [htgt] at herr ⊢
                    by_cases hch : o.chownFails = true
                    · simp only [hch, if_true] at herr ⊢
                      refine ⟨?_, fun _ => ?_⟩
                      · rw [fsLookup_fsRemove, if_neg htq, fsLookup_fsInsert,
                          if_neg hne, fsLookup_fsInsert, if_neg hne,
                          fsLookup_fsRemove, if_neg htq]
                      · rw [fsLookup_fsRemove, if_pos rfl]
                    · rw [Bool.not_eq_true] at hch
                      simp only [hch, Bool.false_eq_true, if_false] at herr ⊢
                      refine ⟨?_, fun _ => ?_⟩
                      · rw [fsLookup_fsRemove, if_neg htq, fsLookup_fsInsert,
                          if_neg hne, fsLookup_fsInsert, if_neg hne,
                          fsLookup_fsInsert, if_neg hne,
                          fsLookup_fsRemove, if_neg htq]
                      · rw [fsLookup_fsRemove, if_pos rfl]
                · rw [Bool.not_eq_true] at hrf
                  simp only [hrf, Bool.false_eq_true, if_false] at herr
                  split at herr <;> cases herr

/-- Witness for C6: a missing source binary fails validation, leaving
the (empty) filesystem untouched. -/
theorem atomic_replace_error_safety_witness :
    (¬ tempPathFor "/usr/local/bin/app" = "/usr/local/bin/app" ∧
      (atomicReplace ⟨false, false, false, false, false, false⟩ []
          "/tmp/src" "/usr/local/bin/app").1 =
        .error ("validating source binary: " ++
          "stat binary: no such file or directory")) ∧
    fsLookup (atomicReplace ⟨false, false, false, false, false, false⟩ []
        "/tmp/src" "/usr/local/bin/app").2 "/usr/local/bin/app" =
      fsLookup [] "/usr/local/bin/app" := by
  have h1 : ¬ tempPathFor "/usr/local/bin/app" = "/usr/local/bin/app" := by
    decide
  have h2 : (atomicReplace ⟨false, false, false, false, false, false⟩ []
      "/tmp/src" "/usr/local/bin/app").1 =
        .error ("validating source binary: " ++
          "stat binary: no such file or directory") := by decide
  exact ⟨⟨h1, h2⟩,
    (atomic_replace_error_safety ⟨false, false, false, false, false, false⟩
      [] "/tmp/src" "/usr/local/bin/app" _ h1 h2).1⟩

/-! ### Terminal-record accounting (C1) -/

theorem countP_chunkRecs (p : Rec → Bool)
    (hstdout : ∀ d, p (Rec.stdout d) = false)
    (hstderr : ∀ d, p (Rec.stderr d) = false)
    (l : List (Bool × String)) : (chunkRecs l).countP p = 0 := by
  induction l with
  | nil => rfl
  | cons c rest ih =>
    have hstep : chunkRecs (c :: rest) =
        (if c.1 then Rec.stdout c.2 else Rec.stderr c.2) :: chunkRecs rest := rfl
    rw [hstep, List.countP_cons, ih]
    cases hb : c.1
    · simp [hstderr]
    · simp [hstdout]

theorem handleCheckUpdate_count (upd : UpdEnv) (srv : ServerInfo) :
    (handleCheckUpdate upd srv).countP finalStatusRecord = 1 := by
  unfold handleCheckUpdate checkUpdate
  by_cases hb : srv.binaryPath = ""
  · rw [if_pos hb]
    rfl
  · rw [if_neg hb]
    cases hrel : upd.latestRelease with
    | error e => rfl
    | ok release =>
      by_cases hnew : isNewerVersion (normalizeVersion srv.version)
          (normalizeVersion release.tagName) = true
      · simp only [hnew]
        rfl
      · rw [Bool.not_eq_true] at hnew
        simp only [hnew]
        rfl

theorem handleUpdate_count (upd : UpdEnv) (srv : ServerInfo) :
    (handleUpdate upd srv).countP finalStatusRecord =
      if updateRunsCancelled upd srv then 0 else 1 := by
  rcases upd with ⟨rel, cancel, asset, dl, rep⟩
  by_cases hb : srv.binaryPath = ""
  · simp only [handleUpdate, updateRunsCancelled, hb]
    rfl
  · cases rel with
    | error e =>
      simp only [handleUpdate, updateRunsCancelled, if_neg hb]
      simp [hb]
      rfl
    | ok release =>
      by_cases hnew : isNewerVersion (normalizeVersion srv.version)
          (normalizeVersion release.tagName) = true
      · cases cancel with
        | true =>
          simp only [handleUpdate, performUpdate, updateRunsCancelled,
            if_neg hb]
          simp [hb, hnew]
        | false =>
          cases asset with
          | error e =>
            simp only [handleUpdate, performUpdate, updateRunsCancelled,
              if_neg hb]
            simp [hb, hnew]
            rfl
          | ok assetName =>
            cases dl with
            | error e =>
              simp only [handleUpdate, performUpdate, updateRunsCancelled,
                if_neg hb]
              simp [hb, hnew]
              rfl
            | ok path =>
              cases rep with
              | some e =>
                simp only [handleUpdate, performUpdate, updateRunsCancelled,
                  if_neg hb]
                simp [hb, hnew]
                rfl
              | none =>
                simp only [handleUpdate, performUpdate, updateRunsCancelled,
                  if_neg hb]
                simp [hb, hnew]
                rfl
      · rw [Bool.not_eq_true] at hnew
        simp only [handleUpdate, performUpdate, updateRunsCancelled,
          if_neg hb]
        simp [hb, hnew]
        rfl

/-- C1 counterexample: on a fully successful `update` connection the
trace is `downloading`, `applied`, `restarting`, and BOTH `applied` and
`restarting` are in the claim's terminal set, so the connection carries
two records the claim counts as terminal, not exactly one. -/
theorem connection_claim_terminal_double :
    (handleConnection envUpdateSuccess srvSample).countP claimTerminal = 2 := by
  decide

/-- C1 (amended): every accepted connection writes exactly one
final-status record — `Exit`, `Error`, `Version`, or an `Update` whose
status is `current`, `available`, `restarting`, or `failed` (counting
`restarting` rather than the preceding `applied` as the update path's
terminal record, and counting `check-update`'s `available` report as
terminal) — except a full `update` cancelled between the version check
and the download, which writes nothing at all. -/
theorem connection_exactly_one_final_record (env : HandlerEnv)
    (srv : ServerInfo) :
    (handleConnection env srv).countP finalStatusRecord =
      if updateCancelledSilently env srv then 0 else 1 := by
  rcases env with ⟨parse, exec, upd⟩
  cases parse with
  | error e =>
    simp [handleConnection, updateCancelledSilently, List.countP_cons]
    rfl
  | ok req =>
    by_cases ha : req.action = ""
    · simp only [handleConnection, updateCancelledSilently]
      rw [if_neg (by simp [ha])]
      rw [List.countP_append,
        countP_chunkRecs _ (fun _ => rfl) (fun _ => rfl)]
      have hupd : (req.action = "update") = False := by simp [ha]
      rcases exec with ⟨chunks, res⟩
      cases res <;> simp [hupd, List.countP_cons] <;> rfl
    · simp only [handleConnection, updateCancelledSilently]
      rw [if_pos ha]
      unfold handleAction
      by_cases hv : req.action = "version"
      · rw [if_pos hv]
        have hupd : (req.action = "update") = False := by simp [hv]
        simp [hupd, List.countP_cons]
        rfl
      · rw [if_neg hv]
        by_cases hc : req.action = "check-update"
        · rw [if_pos hc]
          have hupd : (req.action = "update") = False := by simp [hc]
          simp [hupd, handleCheckUpdate_count]
        · rw [if_neg hc]
          by_cases hu : req.action = "update"
          · rw [if_pos hu]
            have hupd : (req.action = "update") = True := by simp [hu]
            simp [hupd, handleUpdate_count]
          · rw [if_neg hu]
            have hupd : (req.action = "update") = False := by simp [hu]
            simp [hupd, List.countP_cons]
            rfl

/-! ### Update status stream (C4) -/

theorem handleConnection_update_eq (env : HandlerEnv) (srv : ServerInfo)
    (req : Request) (hp : env.parse = .ok req) (ha : req.action = "update") :
    handleConnection env srv = handleUpdate env.upd srv := by
  rcases env with ⟨parse, exec, upd⟩
  have hp' : parse = .ok req := hp
  subst hp'
  simp [handleConnection, handleAction, ha]

theorem handleUpdate_statuses (upd : UpdEnv) (srv : ServerInfo) :
    updateStatuses (handleUpdate upd srv) = ["current"] ∨
    updateStatuses (handleUpdate upd srv) = ["failed"] ∨
    updateStatuses (handleUpdate upd srv) = ["downloading", "failed"] ∨
    updateStatuses (handleUpdate upd srv) =
      ["downloading", "applied", "restarting"] ∨
    updateStatuses (handleUpdate upd srv) = [] := by
  rcases upd with ⟨rel, cancel, asset, dl, rep⟩
  by_cases hb : srv.binaryPath = ""
  · right; left
    simp only [handleUpdate, if_pos hb]
    rfl
  · cases rel with
    | error e =>
      right; left
      simp only [handleUpdate, performUpdate, if_neg hb]
      rfl
    | ok release =>
      by_cases hnew : isNewerVersion (normalizeVersion srv.version)
          (normalizeVersion release.tagName) = true
      · cases cancel with
        | true =>
          right; right; right; right
          simp only [handleUpdate, performUpdate, if_neg hb]
          simp [hnew]
          rfl
        | false =>
          cases asset with
          | error e =>
            right; left
            simp only [handleUpdate, performUpdate, if_neg hb]
            simp [hnew]
            rfl
          | ok assetName =>
            cases dl with
            | error e =>
              right; right; left
              simp only [handleUpdate, performUpdate, if_neg hb]
              simp [hnew]
              rfl
            | ok path =>
              cases rep with
              | some e =>
                right; right; left
                simp only [handleUpdate, performUpdate, if_neg hb]
                simp [hnew]
                rfl
              | none =>
                right; right; right; left
                simp only [handleUpdate, performUpdate, if_neg hb]
                simp [hnew]
                rfl
      · rw [Bool.not_eq_true] at hnew
        left
        simp only [handleUpdate, performUpdate, if_neg hb]
        simp [hnew]
        rfl

/-- C4 counterexample: an `update` whose release fetch fails emits the
single status sequence `failed` — a `failed` record with no preceding
`downloading` record — which matches none of the shapes the claim
allows. -/
theorem update_failed_without_downloading :
    updateStatuses (handleConnection envUpdateFetchFail srvSample) =
      ["failed"] ∧
    ¬ (updateStatuses (handleConnection envUpdateFetchFail srvSample) =
        ["current"] ∨
       updateStatuses (handleConnection envUpdateFetchFail srvSample) =
        ["downloading", "failed"] ∨
       updateStatuses (handleConnection envUpdateFetchFail srvSample) =
        ["downloading", "applied", "restarting"]) := by
  decide

/-- C4 (amended): a full `update` action emits one of the status
sequences `current`; `failed` (discovery/asset failure before any
download, or unconfigured binary path); `downloading, failed`;
`downloading, applied, restarting`; or nothing at all (cancelled between
the version check and the download). -/
theorem update_status_stream (env : HandlerEnv) (srv : ServerInfo)
    (req : Request) (hp : env.parse = .ok req) (ha : req.action = "update") :
    updateStatuses (handleConnection env srv) = ["current"] ∨
    updateStatuses (handleConnection env srv) = ["failed"] ∨
    updateStatuses (handleConnection env srv) = ["downloading", "failed"] ∨
    updateStatuses (handleConnection env srv) =
      ["downloading", "applied", "restarting"] ∨
    updateStatuses (handleConnection env srv) = [] := by
  rw [handleConnection_update_eq env srv req hp ha]
  exact handleUpdate_statuses env.upd srv

/-- Witness for C4 at the fully successful update oracle. -/
theorem update_status_stream_witness :
    updateStatuses (handleConnection envUpdateSuccess srvSample) =
      ["current"] ∨
    updateStatuses (handleConnection envUpdateSuccess srvSample) =
      ["failed"] ∨
    updateStatuses (handleConnection envUpdateSuccess srvSample) =
      ["downloading", "failed"] ∨
    updateStatuses (handleConnection envUpdateSuccess srvSample) =
      ["downloading", "applied", "restarting"] ∨
    updateStatuses (handleConnection envUpdateSuccess srvSample) = [] :=
  update_status_stream envUpdateSuccess srvSample reqUpdate rfl rfl

/-! ### Executor exit semantics (C7) -/

/-- C7: a normally exiting child yields `(exitCode, nil)` from
`Executor.Run`, even for a non-zero code; a non-nil error arises only
from spawn/pipe/reap infrastructure failures; and on an infrastructure
failure the handler ends the trace with an `Error` record and emits no
`Exit` record, while on a nil error it ends with `Exit{code}`. -/
theorem executor_exit_code_semantics :
    (∀ (o : ExecOracle) (code : Int), o.stdoutPipeErr = none →
      o.stderrPipeErr = none → o.startErr = none → o.wait = .exited code →
      executorRun o = (code, none)) ∧
    (∀ o : ExecOracle, o.stdoutPipeErr = none → o.stderrPipeErr = none →
      o.startErr = none → o.wait = .success → executorRun o = (0, none)) ∧
    (∀ (o : ExecOracle) (e : String), (executorRun o).2 = some e →
      isInfraFailure o = true) ∧
    (∀ (env : HandlerEnv) (srv : ServerInfo) (req : Request) (e : String),
      env.parse = .ok req → req.action = "" → env.exec.result = .error e →
      handleConnection env srv = chunkRecs env.exec.chunks ++ [Rec.error e] ∧
      (handleConnection env srv).countP isExitRec = 0) ∧
    (∀ (env : HandlerEnv) (srv : ServerInfo) (req : Request) (code : Int),
      env.parse = .ok req → req.action = "" → env.exec.result = .ok code →
      handleConnection env srv =
        chunkRecs env.exec.chunks ++ [Rec.exit code]) := by
  refine ⟨?_, ?_, ?_, ?_, ?_⟩
  · intro o code h1 h2 h3 h4
    unfold executorRun
    rw [h1, h2, h3, h4]
  · intro o h1 h2 h3 h4
    unfold executorRun
    rw [h1, h2, h3, h4]
  · intro o e h
    rcases o with ⟨so, se, st, w⟩
    cases so <;> cases se <;> cases st <;> cases w <;>
      simp_all [executorRun, isInfraFailure]
  · intro env srv req e hp ha hres
    rcases env with ⟨parse, exec, upd⟩
    have hp' : parse = .ok req := hp
    subst hp'
    rcases exec with ⟨chunks, res⟩
    have hres' : res = .error e := hres
    subst hres'
    have htrace : handleConnection ⟨.ok req, ⟨chunks, .error e⟩, upd⟩ srv =
        chunkRecs chunks ++ [Rec.error e] := by
      simp [handleConnection, ha]
    refine ⟨htrace, ?_⟩
    rw [htrace, List.countP_append,
      countP_chunkRecs _ (fun _ => rfl) (fun _ => rfl)]
    rfl
  · intro env srv req code hp ha hres
    rcases env with ⟨parse, exec, upd⟩
    have hp' : parse = .ok req := hp
    subst hp'
    rcases exec with ⟨chunks, res⟩
    have hres' : res = .ok code := hres
    subst hres'
    simp [handleConnection, ha]

/-- Witness for C7: a clean non-zero exit returns `(7, nil)`, and a
concrete spawn failure makes the handler end with an `Error` record. -/
theorem executor_exit_code_semantics_witness :
    executorRun ⟨none, none, none, .exited 7⟩ = (7, none) ∧
    handleConnection envCmdInfraFail srvSample =
      chunkRecs envCmdInfraFail.exec.chunks ++ [Rec.error "spawn failed"] := by
  refine ⟨executor_exit_code_semantics.1 ⟨none, none, none, .exited 7⟩ 7
    rfl rfl rfl rfl, ?_⟩
  exact (executor_exit_code_semantics.2.2.2.1 envCmdInfraFail srvSample
    reqCmd "spawn failed" rfl rfl rfl).1

/-! ### Action precedence (C10) -/

/-- C10: a request with a non-empty command AND a valid non-empty action
is accepted by the parser's validation, and the handler dispatches on
the action — the trace is the action trace, independent of the executor
outcome and of the command string, so the command is never executed. -/
theorem action_precedence (req : Request)
    (hcmd : ¬ req.command = "")
    (hval : req.action = "update" ∨ req.action = "check-update" ∨
      req.action = "version") :
    validateRequest req = .ok req ∧
    (∀ (upd : UpdEnv) (ex : ExecOutcome) (srv : ServerInfo),
      handleConnection ⟨.ok req, ex, upd⟩ srv = handleAction upd req srv) ∧
    (∀ (upd : UpdEnv) (srv : ServerInfo) (c : String),
      handleAction upd req srv =
        handleAction upd ⟨c, req.action, req.env, req.cwd⟩ srv) := by
  have hact : ¬ req.action = "" := by
    rcases hval with h | h | h <;> simp [h]
  refine ⟨?_, ?_, ?_⟩
  · unfold validateRequest
    rw [if_neg (fun hand => hact hand.2), if_pos hact, if_pos hval]
  · intro upd ex srv
    simp [handleConnection, hact]
  · intro upd srv c
    rfl

/-- Witness for C10 at a request carrying both a command and the
`version` action. -/
theorem action_precedence_witness :
    validateRequest reqBothFields = .ok reqBothFields ∧
    handleConnection ⟨.ok reqBothFields, ⟨[], .ok 0⟩, updSuccess⟩ srvSample =
      handleAction updSuccess reqBothFields srvSample := by
  refine ⟨(action_precedence reqBothFields (by decide) (by decide)).1, ?_⟩
  exact (action_precedence reqBothFields (by decide) (by decide)).2.1
    updSuccess ⟨[], .ok 0⟩ srvSample

/-- Witness for C9: the strict-weak-order properties applied at concrete
version strings. -/
theorem isNewerVersion_strict_weak_order_witness :
    isNewerVersion "1.2.3" "1.2.3" = false ∧
    isNewerVersion "1.0.1" "1.0.0" = false ∧
    isNewerVersion "1.0.0" "1.1.0" = true ∧
    (isNewerVersion "1.0.0" "1.0.0-rc1" = false ∧
      isNewerVersion "1.0.0-rc1" "1.0.0" = false) :=
  ⟨isNewerVersion_strict_weak_order.1 "1.2.3",
   isNewerVersion_strict_weak_order.2.1 "1.0.0" "1.0.1" (by decide),
   isNewerVersion_strict_weak_order.2.2.1 "1.0.0" "1.0.1" "1.1.0"
     (by decide) (by decide),
   isNewerVersion_strict_weak_order.2.2.2 "1.0.0" "1.0.0-beta" "1.0.0-rc1"
     (by decide) (by decide)⟩

end VitoLocal
